import Mathlib

/-
  A verification development for the Riemannian automatic-differentiation
  module `t3f/autodiff.py` of the t3f tensor-train library.

  The module's own code (`_enforce_gauge_conditions`,
  `_is_invariant_to_input_transforms`, `gradients`,
  `hessian_vector_product`, `_block_diag_hessian_vector_product`) is
  embedded shallowly below.  Machine scalars are modelled as exact
  rationals; the one place where IEEE non-finite values are observable
  (the division in the invariance check, which has no zero guard) is
  modelled explicitly by `FVal`.  The external collaborators the module
  drives (orthogonalization, the tangent-space codec
  `riemannian.deltas_to_tangent_space` / `tangent_space_to_deltas` /
  `project`, and the reverse-mode differentiation engine of the host
  framework) are not part of the module's source; where a property needs
  them they are modelled from their documented contracts, as noted on
  each such definition.
-/

set_option maxHeartbeats 1000000

open Matrix

namespace T3F

/-! ## The invariance checker (`_is_invariant_to_input_transforms`, lines 30-57)

The check computes `rel_diff = tf.abs((f_value_1 - f_value_2) / f_value_1)`
and builds `tf.Assert(rel_diff < 1e-5, [err_msg, f_value_1, f_value_2])`.
The division has no zero guard: with IEEE arithmetic, `0/0` is NaN and
`c/0` for `c != 0` is an infinity; every comparison `v < 1e-5` with a NaN
or `+inf` operand is false (for `-inf` the absolute value has already made
the operand `+inf`), so the assertion fires whenever `f_value_1 = 0`. -/

/-- Scalar values as produced by the host numeric engine: a finite value,
or a non-finite one (NaN or an infinity).  The two non-finite kinds are
collapsed into one constructor because the checker observes the value only
through `|.| < 1e-5`, which is false for NaN and for the `+inf` produced
by `|c/0|` alike. -/
inductive FVal where
  | fin (q : ℚ)
  | nonfin
  deriving DecidableEq

/-- Division as the host engine performs it: division by zero gives a
non-finite value (NaN for `0/0`, an infinity otherwise). -/
def fdiv (a b : ℚ) : FVal :=
  if b = 0 then FVal.nonfin else FVal.fin (a / b)

/-- Absolute value on engine scalars; NaN stays NaN, `±inf` maps to `+inf`,
both collapsed in `nonfin`. -/
def fabs : FVal → FVal
  | FVal.fin q => FVal.fin |q|
  | FVal.nonfin => FVal.nonfin

/-- Ordered comparison of an engine scalar against a finite bound.  False
whenever the left operand is non-finite, as in IEEE arithmetic (NaN
compares false; after `fabs` a non-finite operand is `+inf`, and
`+inf < c` is false). -/
def fval_lt : FVal → ℚ → Bool
  | FVal.fin q, c => decide (q < c)
  | FVal.nonfin, _ => false

/-- The condition of the `tf.Assert` op built at line 55:
`tf.abs((f_value_1 - f_value_2) / f_value_1) < 1e-5`. -/
def assert_condition (v1 v2 : ℚ) : Bool :=
  fval_lt (fabs (fdiv (v1 - v2) v1)) (1 / 100000)

/-- The error message attached to the assertion (lines 52-54). -/
def err_message : String :=
  "The function passed to Riemannian autodiff returns different values for two different versions of the same tensor. The function values are"

/-- The assert op returned by `_is_invariant_to_input_transforms`: when its
condition fails it aborts the computation, carrying the message and both
function values (line 55: `tf.Assert(rel_diff < 1e-5, [err_msg, f_value_1,
f_value_2])`). -/
def is_invariant_to_input_transforms (v1 v2 : ℚ) :
    Except (String × ℚ × ℚ) Unit :=
  if assert_condition v1 v2 then Except.ok () else Except.error (err_message, v1, v2)

/-! ## TT cores and `_enforce_gauge_conditions` (lines 10-27)

A TT core of shape `(r1, n, r2)` is stored flat in row-major order, the
layout `tf.reshape` operates on.  `_enforce_gauge_conditions` reshapes
core `i` of `left` to a `(r1*n, r2)` matrix `q`, reshapes `deltas[i]` with
`tf.reshape(.., (-1, r2))` to the same column count, and for every index
before the last replaces the delta by `delta - q (qᵀ delta)`, reshaped
back to the shape of `left`'s core; the last delta is passed through. -/

/-- A TT core: a 3-dimensional array of shape `(r1, n, r2)` with entries
stored flat in row-major order (`entry ((a * n + b) * r2 + c)` is the
element at position `(a, b, c)`).  Offsets at or beyond `r1 * n * r2` are
junk and never relevant.  A matrix-form (4-dimensional) core of shape
`(r1, n, m, r2)` has the same flat layout with `n * m` in place of `n`. -/
structure Core where
  r1 : ℕ
  n : ℕ
  r2 : ℕ
  entry : ℕ → ℚ

/-- Default core used to totalize list indexing (out-of-range indexing is
never exercised by the statements below). -/
def coreDefault : Core := ⟨0, 0, 0, fun _ => 0⟩

/-- `tf.zeros_like`: a core of the same shape with all entries zero. -/
def zero_like (c : Core) : Core := ⟨c.r1, c.n, c.r2, fun _ => 0⟩

/-- Reading a flat-stored core as an `m × r` matrix: the effect of
`tf.reshape(core, (m, r))` (and of `tf.reshape(core, (-1, r))` with
`m` the quotient of the total size by `r`). -/
def reshape_mat (c : Core) (m r : ℕ) : Matrix (Fin m) (Fin r) ℚ :=
  fun i j => c.entry (i.val * r + j.val)

/-- The body of the `i < left.ndims() - 1` branch of
`_enforce_gauge_conditions` (lines 20-23): with `q` the reshaped left
core and `delta` reshaped to `(-1, q.r2)`, compute
`delta - q @ (qᵀ @ delta)` and reshape back to the shape of the left
core.  Written directly on the flat storage. -/
def gauge_projected (q d : Core) : Core where
  r1 := q.r1
  n := q.n
  r2 := q.r2
  entry := fun idx =>
    let r := q.r2
    let m := q.r1 * q.n
    let i := idx / r
    let j := idx % r
    d.entry (i * r + j) -
      ∑ c : Fin r, q.entry (i * r + c.val) *
        ∑ b : Fin m, q.entry (b.val * r + c.val) * d.entry (b.val * r + j)

/-- `_enforce_gauge_conditions(deltas, left)` (lines 10-27): iterate over
the core indices of `left`; before the last index project the delta onto
the complement of the column space of the reshaped left core, at the last
index pass the delta through unchanged. -/
def enforce_gauge_conditions (deltas left : List Core) : List Core :=
  (List.range left.length).map fun i =>
    if i < left.length - 1 then
      gauge_projected (left.getD i coreDefault) (deltas.getD i coreDefault)
    else
      deltas.getD i coreDefault

/-- The delta-list initialization shared by both orchestrators (lines
99-100 and 161-162): `deltas = [right.tt_cores[0]]` followed by
`tf.zeros_like(cc)` for every remaining core `cc` of `right`. -/
def initial_deltas (right : List Core) : List Core :=
  match right with
  | [] => []
  | c :: rest => c :: rest.map zero_like

/-! ## The order-2 instantiation of the pipeline

For an order-2 TT tensor the point is a rank-`r` factorization of an
`n1 × n2` matrix.  The left-orthogonal representation has cores
`(U, S)` with `Uᵀ U = 1` and the right-orthogonal representation derived
from it has cores `(W, V)` with `V Vᵀ = 1`; the represented value is
`W * V`.  Only `U`, `W` and `V` are consumed by the module.  Delta lists
have one `n1 × r` entry (shaped like `right`'s first core) and one
`r × n2` entry (shaped like its second). -/

/-- Ambient value space for order-2 TT tensors: plain `n1 × n2` matrices. -/
abbrev Amb (n1 n2 : ℕ) := Matrix (Fin n1) (Fin n2) ℚ

/-- An order-2 TT point as the module sees it: `U` is the first core of
the left-orthogonal representation (reshaped), `W` and `V` the two cores
of the right-orthogonal representation (reshaped).  The orthogonalizer
contract makes `Uᵀ * U = 1`, `V * Vᵀ = 1` and gives both representations
the same value; these facts are taken as hypotheses where needed. -/
structure TT2 (n1 n2 r : ℕ) where
  U : Matrix (Fin n1) (Fin r) ℚ
  W : Matrix (Fin n1) (Fin r) ℚ
  V : Matrix (Fin r) (Fin n2) ℚ

/-- Delta coordinates for an order-2 point: one tensor per core, shaped
like the cores of `right`. -/
abbrev Deltas2 (n1 n2 r : ℕ) :=
  Matrix (Fin n1) (Fin r) ℚ × Matrix (Fin r) (Fin n2) ℚ

variable {n1 n2 r : ℕ}

/-- The tensor value of the point (the chain contraction of the cores of
`right`; by the orthogonalizer contract also the value of `x` itself and
of `left`). -/
def ttValue (x : TT2 n1 n2 r) : Amb n1 n2 := x.W * x.V

/-- Modelled from the spec: `riemannian.deltas_to_tangent_space` (the
Tangent-Space Codec's `encode`), which is repository code outside the
module.  For order 2 the encoded tangent vector at `x` relative to
`(left, right)` has ambient value `delta_0 * V + U * delta_1`: each core's
delta replaces that core, flanked by left cores before it and right cores
after it.  At `deltas = (W, 0)` this is `W * V`, the value of `x`, as the
spec requires. -/
def deltas_to_tangent_space (x : TT2 n1 n2 r) (d : Deltas2 n1 n2 r) : Amb n1 n2 :=
  d.1 * x.V + x.U * d.2

/-- Modelled from the spec: `riemannian.tangent_space_to_deltas` (the
codec's `decode`), repository code outside the module; inverse of
`deltas_to_tangent_space` on gauge-fixed delta lists.  The first
component is the gauge-fixed (column-space-of-`U` removed) part of
`z * Vᵀ`, the second is `Uᵀ * z`; `tangent_decode_encode` below proves
the inverse property from the orthogonality contracts. -/
def tangent_space_to_deltas (x : TT2 n1 n2 r) (z : Amb n1 n2) : Deltas2 n1 n2 r :=
  (z * x.Vᵀ - x.U * (x.Uᵀ * (z * x.Vᵀ)), x.Uᵀ * z)

/-- Modelled from the spec: `riemannian.project`, repository code outside
the module — the orthogonal projection of an ambient tensor onto the
tangent space at `x`.  `project_fixes_tangent`, `project_idempotent` and
`project_self_adjoint` below prove from the orthogonality contracts that
this formula is that projection. -/
def project (x : TT2 n1 n2 r) (z : Amb n1 n2) : Amb n1 n2 :=
  z * (x.Vᵀ * x.V) + x.U * (x.Uᵀ * z) - x.U * (x.Uᵀ * (z * (x.Vᵀ * x.V)))

/-- `_enforce_gauge_conditions` specialized to order 2 (matrix form): the
first delta loses its component in the column space of `U`, the last
delta passes through. -/
def enforce_gauge_tt2 (x : TT2 n1 n2 r) (d : Deltas2 n1 n2 r) : Deltas2 n1 n2 r :=
  (d.1 - x.U * (x.Uᵀ * d.1), d.2)

/-- The delta-list initialization of lines 99-100 / 161-162 at order 2:
`(right.tt_cores[0], 0)`. -/
def initial_deltas_tt2 (x : TT2 n1 n2 r) : Deltas2 n1 n2 r := (x.W, 0)

/-- The Frobenius inner product of two matrices, the scalar the host
engine computes for `tf.reduce_sum(a * b)`. -/
def finner {a b : ℕ} (A B : Matrix (Fin a) (Fin b) ℚ) : ℚ :=
  (Aᵀ * B).trace

/-- The function of the closed-form gradient property:
`f(z) = 0.5 * <z, t>^2` for a fixed tensor `t`. -/
def inner_sq_half (t z : Amb n1 n2) : ℚ := 1 / 2 * finner z t ^ 2

/-- The Euclidean gradient of `inner_sq_half t`: `<z, t> * t`.  This is
what the external reverse-mode engine returns for that function;
`inner_sq_half_expansion` below proves it is the exact first-order
coefficient of `inner_sq_half t`. -/
def inner_sq_half_grad (t z : Amb n1 n2) : Amb n1 n2 := finner z t • t

/-- `gradients(func, x, debug)` (lines 60-110) at order 2.  `f` is the
user function as a function of the ambient tensor value (such functions
are exactly the representation-invariant ones, the documented
precondition), and `df` its Euclidean gradient as returned by the
external reverse-mode engine.  Following the source: build the deltas,
encode `x_projection`, evaluate `f` on it and (for the debug check) on
`right`, run the assert op, differentiate through the encoding
(`tf.gradients(function_value, deltas)` — by the chain rule through the
linear encoding this is `(df(x_proj) * Vᵀ, Uᵀ * df(x_proj))`, see
`first_grad_expansion`), enforce the gauge conditions and encode the
result.  A failing assert aborts with the message and both values; the
arithmetic of the returned tangent vector does not depend on `debug`. -/
def gradients (x : TT2 n1 n2 r) (f : Amb n1 n2 → ℚ) (df : Amb n1 n2 → Amb n1 n2)
    (debug : Bool) : Except (String × ℚ × ℚ) (Amb n1 n2) :=
  let deltas := initial_deltas_tt2 x
  let xProjection := deltas_to_tangent_space x deltas
  let functionValue := f xProjection
  let functionValueRight := f (ttValue x)
  let coresGrad : Deltas2 n1 n2 r := (df xProjection * x.Vᵀ, x.Uᵀ * df xProjection)
  let res := deltas_to_tangent_space x (enforce_gauge_tt2 x coresGrad)
  if debug then
    match is_invariant_to_input_transforms functionValue functionValueRight with
    | Except.error e => Except.error e
    | Except.ok _ => Except.ok res
  else
    Except.ok res

/-- The first differentiation pass of `hessian_vector_product` as a
symbolic function of the deltas, for a quadratic user function
`f(z) = 1/2 * <z, L z> + <g, z>` (with `L` the self-adjoint Hessian
operator): `tf.gradients(function_value, deltas)` is
`((L(enc d) + g) * Vᵀ, Uᵀ * (L(enc d) + g))` by the chain rule through
the linear encoding. -/
def hvp_first_grad (x : TT2 n1 n2 r) (L : Amb n1 n2 → Amb n1 n2) (g : Amb n1 n2)
    (d : Deltas2 n1 n2 r) : Deltas2 n1 n2 r :=
  ((L (deltas_to_tangent_space x d) + g) * x.Vᵀ,
   x.Uᵀ * (L (deltas_to_tangent_space x d) + g))

/-- Lines 173-174 of the source as a function of the deltas: the scalar
`grad_times_vec = tf.add_n([tf.reduce_sum(a * b) for a, b in
zip(cores_grad, vec_deltas)])`, the directional derivative of the user
function along the decoded projected vector. -/
def hvp_directional (x : TT2 n1 n2 r) (L : Amb n1 n2 → Amb n1 n2) (g : Amb n1 n2)
    (vd d : Deltas2 n1 n2 r) : ℚ :=
  finner (hvp_first_grad x L g d).1 vd.1 + finner (hvp_first_grad x L g d).2 vd.2

/-- The second differentiation pass `tf.gradients(grad_times_vec, deltas)`
(line 175) for the quadratic user function: the exact gradient of
`hvp_directional` in the deltas (`second_grad_expansion` below proves
exactness).  The `g` term of the first pass is constant in the deltas and
drops out. -/
def hvp_second_grad (x : TT2 n1 n2 r) (L : Amb n1 n2 → Amb n1 n2)
    (vd : Deltas2 n1 n2 r) : Deltas2 n1 n2 r :=
  (L (deltas_to_tangent_space x vd) * x.Vᵀ,
   x.Uᵀ * L (deltas_to_tangent_space x vd))

/-- `hessian_vector_product(func, x, vector)` (lines 113-177) at order 2,
for the quadratic user function `f(z) = 1/2 * <z, L z> + <g, z>`:
project `vector` onto the tangent space, decode it to deltas, form the
directional derivative from the first differentiation pass, differentiate
it a second time with respect to the same deltas, enforce the gauge
conditions with `left` and encode the result. -/
def hessian_vector_product (x : TT2 n1 n2 r) (L : Amb n1 n2 → Amb n1 n2)
    (g : Amb n1 n2) (vec : Amb n1 n2) : Amb n1 n2 :=
  let vectorProjected := project x vec
  let vecDeltas := tangent_space_to_deltas x vectorProjected
  let secondCoresGrad := hvp_second_grad x L vecDeltas
  deltas_to_tangent_space x (enforce_gauge_tt2 x secondCoresGrad)

/-! ## The deferred computation graphs and their execution order

Both public operations build a deferred op graph; numeric evaluation is
later.  A node may produce its result only after every node it depends on
(by a data edge or a control edge from `tf.control_dependencies`) has
produced its result.  The nodes and edges below transcribe the graph each
function builds with `debug = True`.  In `gradients` (line 107) the
backward ops of `tf.gradients(function_value, deltas)` are created inside
`with tf.control_dependencies([assert_op])`, so the first differentiation
pass carries a control edge to the assert; in `hessian_vector_product`
(lines 169-171) only `riemannian.project(vector, x)` is created inside
that block, and `cores_grad = tf.gradients(function_value, deltas)` is
created after the block ends, so it carries no such edge. -/

/-- Graph nodes built by `gradients` (lines 96-110), `debug = True`. -/
inductive GNode where
  | leftO      -- line 97: left = orthogonalize_tt_cores(x)
  | rightO     -- line 98: right = orthogonalize_tt_cores(left, ...)
  | deltas     -- lines 99-100: the initial delta list
  | xproj      -- line 101: deltas_to_tangent_space(deltas, x, left, right)
  | fval       -- line 102: func(x_projection)
  | fvalRight  -- line 104: func(right)
  | assertOp   -- line 104: the invariance assert op
  | grad1      -- line 108: tf.gradients(function_value, deltas)
  | gauge      -- line 109: _enforce_gauge_conditions(cores_grad, left)
  | output     -- line 110: deltas_to_tangent_space(deltas, x, left, right)
  deriving DecidableEq, Fintype

/-- Direct dependencies in the `gradients` graph: `grad_edge a b` means
op `a` consumes the result of op `b` (data edge), or is control-sequenced
after it (the single control edge `grad1 -> assertOp` from line 107). -/
def grad_edge : GNode → GNode → Bool
  | GNode.rightO, GNode.leftO => true
  | GNode.deltas, GNode.rightO => true
  | GNode.xproj, GNode.deltas => true
  | GNode.xproj, GNode.leftO => true
  | GNode.xproj, GNode.rightO => true
  | GNode.fval, GNode.xproj => true
  | GNode.fvalRight, GNode.rightO => true
  | GNode.assertOp, GNode.fval => true
  | GNode.assertOp, GNode.fvalRight => true
  | GNode.grad1, GNode.fval => true
  | GNode.grad1, GNode.deltas => true
  | GNode.grad1, GNode.assertOp => true   -- control edge, line 107
  | GNode.gauge, GNode.grad1 => true
  | GNode.gauge, GNode.leftO => true
  | GNode.output, GNode.gauge => true
  | GNode.output, GNode.leftO => true
  | GNode.output, GNode.rightO => true
  | _, _ => false

/-- Graph nodes built by `hessian_vector_product` (lines 157-177),
`debug = True`. -/
inductive HNode where
  | leftO        -- line 159
  | rightO       -- line 160
  | deltas       -- lines 161-162
  | xproj        -- line 163
  | fval         -- line 164
  | fvalRight    -- line 166
  | assertOp     -- line 166
  | projV        -- line 170: riemannian.project(vector, x)
  | grad1        -- line 171: tf.gradients(function_value, deltas)
  | vecDeltas    -- line 172: tangent_space_to_deltas(vector_projected)
  | directional  -- lines 173-174: grad_times_vec
  | grad2        -- line 175: tf.gradients(grad_times_vec, deltas)
  | gauge        -- line 176
  | output       -- line 177
  deriving DecidableEq, Fintype

/-- Direct dependencies in the `hessian_vector_product` graph.  The only
control edge is `projV -> assertOp` (line 169-170); `grad1` is created
outside the `tf.control_dependencies` block and has no edge to the
assert. -/
def hvp_edge : HNode → HNode → Bool
  | HNode.rightO, HNode.leftO => true
  | HNode.deltas, HNode.rightO => true
  | HNode.xproj, HNode.deltas => true
  | HNode.xproj, HNode.leftO => true
  | HNode.xproj, HNode.rightO => true
  | HNode.fval, HNode.xproj => true
  | HNode.fvalRight, HNode.rightO => true
  | HNode.assertOp, HNode.fval => true
  | HNode.assertOp, HNode.fvalRight => true
  | HNode.projV, HNode.assertOp => true   -- control edge, lines 169-170
  | HNode.grad1, HNode.fval => true
  | HNode.grad1, HNode.deltas => true
  | HNode.vecDeltas, HNode.projV => true
  | HNode.directional, HNode.grad1 => true
  | HNode.directional, HNode.vecDeltas => true
  | HNode.grad2, HNode.directional => true
  | HNode.grad2, HNode.deltas => true
  | HNode.gauge, HNode.grad2 => true
  | HNode.gauge, HNode.leftO => true
  | HNode.output, HNode.gauge => true
  | HNode.output, HNode.leftO => true
  | HNode.output, HNode.rightO => true
  | _, _ => false

/-- A (possibly partial) execution of a dependency graph: a duplicate-free
list of ops, in the order their results are produced, closed under
dependencies — every dependency of an executed op was executed earlier.
(An `abbrev` so decidability-instance search sees through it.) -/
abbrev exec_order {α : Type} [DecidableEq α] (edge : α → α → Bool) (l : List α) : Prop :=
  l.Nodup ∧ ∀ a ∈ l, ∀ b, edge a b = true → b ∈ l ∧ l.indexOf b < l.indexOf a

/-- An execution of the `hessian_vector_product` graph that produces the
result of the first differentiation pass without ever evaluating the
assert op. -/
def hvp_sched_no_assert : List HNode :=
  [HNode.leftO, HNode.rightO, HNode.deltas, HNode.xproj, HNode.fval, HNode.grad1]

/-- A complete execution of the `gradients` graph. -/
def grad_sched_full : List GNode :=
  [GNode.leftO, GNode.rightO, GNode.deltas, GNode.xproj, GNode.fval,
   GNode.fvalRight, GNode.assertOp, GNode.grad1, GNode.gauge, GNode.output]

/-- A complete execution of the `hessian_vector_product` graph. -/
def hvp_sched_full : List HNode :=
  [HNode.leftO, HNode.rightO, HNode.deltas, HNode.xproj, HNode.fval,
   HNode.fvalRight, HNode.assertOp, HNode.projV, HNode.grad1, HNode.vecDeltas,
   HNode.directional, HNode.grad2, HNode.gauge, HNode.output]

/-! ## The unfinished block-diagonal variant (lines 180-221)

`_block_diag_hessian_vector_product` loops over the core indices; in the
TT-matrix branch, for every index other than 0 the condition of line 202,
`elif i == w.ndims() - 1:`, reads the name `w`, which is bound nowhere in
the function (nor module-wide), so Python raises `NameError` while
evaluating the condition, before any slicing on that iteration and before
the loop can finish.  The per-iteration slicing of the other branches is
embedded below; the gauge arithmetic that follows the slice inside an
iteration (lines 213-219) is irrelevant to the iteration that raises and
is elided. -/

/-- The `NameError` Python raises at line 202. -/
def name_error_w : String := "NameError: name w is not defined"

/-- Slicing a flat-stored core: keep `rowCount` rows starting at
`rowStart` along the first axis and `colCount` columns starting at
`colStart` along the last axis (the middle axis is kept whole), as in
`cores_grad[r1:, :, :r2]`. -/
def slice_core (c : Core) (rowStart rowCount colStart colCount : ℕ) : Core where
  r1 := rowCount
  n := c.n
  r2 := colCount
  entry := fun idx =>
    let a := idx / (c.n * colCount)
    let rem := idx % (c.n * colCount)
    let b := rem / colCount
    let k := rem % colCount
    c.entry (((a + rowStart) * c.n + b) * c.r2 + (k + colStart))

/-- One iteration of the branch ladder at lines 199-212 computing
`curr_grad` from `cores_grad`: in the TT-matrix branch every index other
than 0 evaluates `w.ndims()` and raises `NameError`; the plain-tensor
branch slices by the position of the index. -/
def block_diag_curr_grad (isMatrix : Bool) (ndims i r1 r2 : ℕ)
    (coresGrad : Core) : Except String Core :=
  if isMatrix then
    if i = 0 then
      Except.ok (slice_core coresGrad 0 coresGrad.r1 0 r2)
    else
      Except.error name_error_w
  else
    if i = 0 then
      Except.ok (slice_core coresGrad 0 coresGrad.r1 0 r2)
    else if i = ndims - 1 then
      Except.ok (slice_core coresGrad r1 (coresGrad.r1 - r1) 0 coresGrad.r2)
    else
      Except.ok (slice_core coresGrad r1 (coresGrad.r1 - r1) 0 r2)

/-- Sequential evaluation of a loop body over a list of indices, stopping
at the first raised error, as the Python `for` loop does. -/
def run_loop (f : ℕ → Except String Core) : List ℕ → Except String (List Core)
  | [] => Except.ok []
  | a :: rest =>
    match f a with
    | Except.error e => Except.error e
    | Except.ok c =>
      match run_loop f rest with
      | Except.error e => Except.error e
      | Except.ok cs => Except.ok (c :: cs)

/-- The `final_deltas` loop of `_block_diag_hessian_vector_product`
(lines 190-220) up to the point where each iteration either has computed
`curr_grad` or has raised: `shapes` lists the `(r1, r2)` pairs read from
`left`'s cores, `coresGrads` the per-core gradients produced by the
external engine. -/
def block_diag_final_deltas (isMatrix : Bool) (ndims : ℕ)
    (shapes : List (ℕ × ℕ)) (coresGrads : List Core) : Except String (List Core) :=
  run_loop
    (fun i =>
      block_diag_curr_grad isMatrix ndims i
        (shapes.getD i (0, 0)).1 (shapes.getD i (0, 0)).2
        (coresGrads.getD i coreDefault))
    (List.range ndims)

/-! ## Concrete instances used to witness the hypotheses of the theorems -/

/-- The order-2 point on 1 × 1 matrices with rank 1 whose cores are all
the 1 × 1 identity; its orthogonality contracts hold on the nose. -/
def ttOne : TT2 1 1 1 := ⟨1, 1, 1⟩

/-- A concrete (1,1,1)-shaped core with entry 1 (an orthonormal 1 × 1
column when reshaped). -/
def coreOne : Core := ⟨1, 1, 1, fun _ => 1⟩

/-- A concrete (1,1,1)-shaped core with entry 5. -/
def coreFive : Core := ⟨1, 1, 1, fun _ => 5⟩

/-! ## Lemmas: the Frobenius inner product -/

theorem finner_adj_right {a b k : ℕ} (A : Matrix (Fin a) (Fin k) ℚ)
    (M : Matrix (Fin k) (Fin b) ℚ) (B : Matrix (Fin a) (Fin b) ℚ) :
    finner (A * M) B = finner A (B * Mᵀ) := by
  unfold finner
  rw [transpose_mul, Matrix.mul_assoc, Matrix.trace_mul_comm, Matrix.mul_assoc]

theorem finner_adj_left {a b k : ℕ} (M : Matrix (Fin a) (Fin k) ℚ)
    (A : Matrix (Fin k) (Fin b) ℚ) (B : Matrix (Fin a) (Fin b) ℚ) :
    finner (M * A) B = finner A (Mᵀ * B) := by
  unfold finner
  rw [transpose_mul, Matrix.mul_assoc]

theorem finner_comm {a b : ℕ} (A B : Matrix (Fin a) (Fin b) ℚ) :
    finner A B = finner B A := by
  unfold finner
  conv_lhs => rw [← Matrix.trace_transpose, transpose_mul, transpose_transpose]

theorem finner_add_left {a b : ℕ} (A B C : Matrix (Fin a) (Fin b) ℚ) :
    finner (A + B) C = finner A C + finner B C := by
  unfold finner
  rw [transpose_add, Matrix.add_mul, trace_add]

theorem finner_add_right {a b : ℕ} (A B C : Matrix (Fin a) (Fin b) ℚ) :
    finner A (B + C) = finner A B + finner A C := by
  unfold finner
  rw [Matrix.mul_add, trace_add]

theorem finner_sub_left {a b : ℕ} (A B C : Matrix (Fin a) (Fin b) ℚ) :
    finner (A - B) C = finner A C - finner B C := by
  unfold finner
  rw [transpose_sub, Matrix.sub_mul, trace_sub]

theorem finner_sub_right {a b : ℕ} (A B C : Matrix (Fin a) (Fin b) ℚ) :
    finner A (B - C) = finner A B - finner A C := by
  unfold finner
  rw [Matrix.mul_sub, trace_sub]

theorem finner_smul_left {a b : ℕ} (c : ℚ) (A B : Matrix (Fin a) (Fin b) ℚ) :
    finner (c • A) B = c * finner A B := by
  unfold finner
  rw [transpose_smul, Matrix.smul_mul, trace_smul, smul_eq_mul]

/-- The inner product of `G` with an encoded tangent vector decomposes
along the two cores: this is the adjoint of the (linear) encoding. -/
theorem finner_encode (x : TT2 n1 n2 r) (G : Amb n1 n2) (e : Deltas2 n1 n2 r) :
    finner G (deltas_to_tangent_space x e)
      = finner e.1 (G * x.Vᵀ) + finner e.2 (x.Uᵀ * G) := by
  unfold deltas_to_tangent_space
  rw [finner_add_right, finner_comm G (e.1 * x.V), finner_adj_right,
    finner_comm G (x.U * e.2), finner_adj_left]

/-! ## Lemmas: encoding, decoding, gauge and projection -/

/-- Encoding is additive in the deltas. -/
theorem encode_add (x : TT2 n1 n2 r) (d e : Deltas2 n1 n2 r) :
    deltas_to_tangent_space x (d + e)
      = deltas_to_tangent_space x d + deltas_to_tangent_space x e := by
  unfold deltas_to_tangent_space
  simp only [Prod.fst_add, Prod.snd_add, Matrix.add_mul, Matrix.mul_add]
  abel

/-- At the initial delta configuration `(right.tt_cores[0], 0)` the
encoding reproduces the value of `x` exactly. -/
theorem encode_initial_deltas (x : TT2 n1 n2 r) :
    deltas_to_tangent_space x (initial_deltas_tt2 x) = ttValue x := by
  unfold deltas_to_tangent_space initial_deltas_tt2 ttValue
  simp [Matrix.mul_zero]

/-- Gauge-projecting the raw delta pair `(G * Vᵀ, Uᵀ * G)` and encoding
the result yields exactly `project x G`: the algebraic heart of both
orchestrators. -/
theorem encode_gauge_key (x : TT2 n1 n2 r) (G : Amb n1 n2) :
    deltas_to_tangent_space x (enforce_gauge_tt2 x (G * x.Vᵀ, x.Uᵀ * G))
      = project x G := by
  unfold deltas_to_tangent_space enforce_gauge_tt2 project
  simp only [Matrix.sub_mul, Matrix.mul_assoc]
  abel

/-- Decode-then-encode is `project`: decoding any ambient tensor and
encoding the result lands on its tangent-space projection. -/
theorem tangent_encode_decode (x : TT2 n1 n2 r) (z : Amb n1 n2) :
    deltas_to_tangent_space x (tangent_space_to_deltas x z) = project x z :=
  encode_gauge_key x z

/-- Decoding inverts encoding on gauge-fixed delta pairs, given the
orthogonality contracts: justifies `tangent_space_to_deltas` as the
codec's `decode`. -/
theorem tangent_decode_encode (x : TT2 n1 n2 r) (d : Deltas2 n1 n2 r)
    (hU : x.Uᵀ * x.U = 1) (hV : x.V * x.Vᵀ = 1) (hgauge : x.Uᵀ * d.1 = 0) :
    tangent_space_to_deltas x (deltas_to_tangent_space x d) = d := by
  obtain ⟨d1, d2⟩ := d
  have hg : x.Uᵀ * d1 = 0 := hgauge
  have hUU : ∀ (k : ℕ) (y : Matrix (Fin r) (Fin k) ℚ), x.Uᵀ * (x.U * y) = y := by
    intro k y
    rw [← Matrix.mul_assoc, hU, Matrix.one_mul]
  have e1 : (d1 * x.V + x.U * d2) * x.Vᵀ = d1 + x.U * (d2 * x.Vᵀ) := by
    rw [Matrix.add_mul, Matrix.mul_assoc, hV, Matrix.mul_one, Matrix.mul_assoc]
  have e2 : x.Uᵀ * (d1 + x.U * (d2 * x.Vᵀ)) = d2 * x.Vᵀ := by
    rw [Matrix.mul_add, hg, hUU, zero_add]
  have e3 : x.Uᵀ * (d1 * x.V + x.U * d2) = d2 := by
    rw [Matrix.mul_add, ← Matrix.mul_assoc, hg, Matrix.zero_mul, hUU, zero_add]
  unfold tangent_space_to_deltas deltas_to_tangent_space
  simp only [Prod.mk.injEq]
  constructor
  · rw [e1, e2, add_sub_cancel_right]
  · exact e3

/-- `project` fixes every encoded tangent vector, given the orthogonality
contracts. -/
theorem project_fixes_tangent (x : TT2 n1 n2 r) (hU : x.Uᵀ * x.U = 1)
    (hV : x.V * x.Vᵀ = 1) (d : Deltas2 n1 n2 r) :
    project x (deltas_to_tangent_space x d) = deltas_to_tangent_space x d := by
  obtain ⟨d1, d2⟩ := d
  have hVVV : x.V * (x.Vᵀ * x.V) = x.V := by
    rw [← Matrix.mul_assoc, hV, Matrix.one_mul]
  have hUU : ∀ (k : ℕ) (y : Matrix (Fin r) (Fin k) ℚ), x.Uᵀ * (x.U * y) = y := by
    intro k y
    rw [← Matrix.mul_assoc, hU, Matrix.one_mul]
  unfold project deltas_to_tangent_space
  simp only [Matrix.add_mul, Matrix.mul_add, Matrix.mul_assoc, hVVV, hUU]
  abel

/-- `project` is idempotent, given the orthogonality contracts. -/
theorem project_idempotent (x : TT2 n1 n2 r) (hU : x.Uᵀ * x.U = 1)
    (hV : x.V * x.Vᵀ = 1) (z : Amb n1 n2) :
    project x (project x z) = project x z := by
  rw [← tangent_encode_decode x z]
  exact project_fixes_tangent x hU hV (tangent_space_to_deltas x z)

/-- `project` is self-adjoint for the Frobenius inner product: together
with idempotence and `project_fixes_tangent` / `tangent_encode_decode`
this identifies it as the orthogonal projection onto the tangent space. -/
theorem project_self_adjoint (x : TT2 n1 n2 r) (z y : Amb n1 n2) :
    finner (project x z) y = finner z (project x y) := by
  have t1 : finner (z * (x.Vᵀ * x.V)) y = finner z (y * (x.Vᵀ * x.V)) := by
    rw [finner_adj_right, transpose_mul, transpose_transpose]
  have t2 : finner (x.U * (x.Uᵀ * z)) y = finner z (x.U * (x.Uᵀ * y)) := by
    rw [finner_adj_left, finner_adj_left, transpose_transpose]
  have t3 : finner (x.U * (x.Uᵀ * (z * (x.Vᵀ * x.V)))) y
      = finner z (x.U * (x.Uᵀ * (y * (x.Vᵀ * x.V)))) := by
    rw [finner_adj_left, finner_adj_left, transpose_transpose, finner_adj_right,
      transpose_mul, transpose_transpose, Matrix.mul_assoc, Matrix.mul_assoc]
  unfold project
  rw [finner_sub_left, finner_add_left, finner_sub_right, finner_add_right, t1, t2, t3]

/-! ## Lemmas: exactness of the modelled differentiation-engine outputs -/

/-- `inner_sq_half_grad` is the exact first-order coefficient of
`inner_sq_half`: this justifies modelling the reverse-mode engine's
output for `f(z) = 0.5 * <z, t>^2` by `<z, t> * t`. -/
theorem inner_sq_half_expansion (t z h : Amb n1 n2) :
    inner_sq_half t (z + h)
      = inner_sq_half t z + finner (inner_sq_half_grad t z) h
        + 1 / 2 * finner h t ^ 2 := by
  unfold inner_sq_half inner_sq_half_grad
  rw [finner_add_left, finner_smul_left, finner_comm t h]
  ring

/-- The chain rule through the linear encoding, exactly: the delta
gradient pair `(df(x_proj) * Vᵀ, Uᵀ * df(x_proj))` used in `gradients`
is the exact first-order coefficient in the deltas of
`f(encode(deltas))` for `f = inner_sq_half t`. -/
theorem first_grad_expansion (x : TT2 n1 n2 r) (t : Amb n1 n2)
    (d e : Deltas2 n1 n2 r) :
    inner_sq_half t (deltas_to_tangent_space x (d + e))
      = inner_sq_half t (deltas_to_tangent_space x d)
        + (finner e.1 (inner_sq_half_grad t (deltas_to_tangent_space x d) * x.Vᵀ)
           + finner e.2 (x.Uᵀ * inner_sq_half_grad t (deltas_to_tangent_space x d)))
        + 1 / 2 * finner (deltas_to_tangent_space x e) t ^ 2 := by
  rw [encode_add, inner_sq_half_expansion, finner_encode]

/-- The second differentiation pass is exact: `hvp_second_grad` is the
exact gradient in the deltas of the directional-derivative scalar
`hvp_directional`, for the quadratic user function with additive
self-adjoint Hessian operator `L`. -/
theorem second_grad_expansion (x : TT2 n1 n2 r) (L : Amb n1 n2 → Amb n1 n2)
    (g : Amb n1 n2) (hAdd : ∀ a b, L (a + b) = L a + L b)
    (hSym : ∀ a b, finner (L a) b = finner a (L b))
    (vd d e : Deltas2 n1 n2 r) :
    hvp_directional x L g vd (d + e) - hvp_directional x L g vd d
      = finner e.1 (hvp_second_grad x L vd).1 + finner e.2 (hvp_second_grad x L vd).2 := by
  have key : finner (L (deltas_to_tangent_space x e) * x.Vᵀ) vd.1
        + finner (x.Uᵀ * L (deltas_to_tangent_space x e)) vd.2
      = finner e.1 (L (deltas_to_tangent_space x vd) * x.Vᵀ)
        + finner e.2 (x.Uᵀ * L (deltas_to_tangent_space x vd)) := by
    rw [finner_comm (L (deltas_to_tangent_space x e) * x.Vᵀ) vd.1,
      finner_comm (x.Uᵀ * L (deltas_to_tangent_space x e)) vd.2,
      ← finner_encode, hSym, finner_comm, finner_encode]
  unfold hvp_directional hvp_first_grad hvp_second_grad
  rw [encode_add, hAdd]
  simp only [Matrix.add_mul, Matrix.mul_add, finner_add_left]
  linarith [key]

/-! ## Lemmas: list indexing and the flat-storage / matrix bridge -/

theorem getD_map_zero_like (l : List Core) (i : ℕ) :
    (l.map zero_like).getD i coreDefault = zero_like (l.getD i coreDefault) := by
  induction l generalizing i with
  | nil => cases i <;> rfl
  | cons c rest ih =>
    cases i with
    | zero => rfl
    | succ k =>
      simp only [List.map_cons, List.getD_cons_succ]
      exact ih k

theorem getD_range_map (f : ℕ → Core) (n i : ℕ) (hi : i < n) :
    ((List.range n).map f).getD i coreDefault = f i := by
  rw [List.getD_eq_getElem?_getD, List.getElem?_map, List.getElem?_range hi]
  rfl

/-- Indexing the output of `_enforce_gauge_conditions`. -/
theorem enforce_gauge_getD (deltas left : List Core) (i : ℕ) (hi : i < left.length) :
    (enforce_gauge_conditions deltas left).getD i coreDefault
      = if i < left.length - 1 then
          gauge_projected (left.getD i coreDefault) (deltas.getD i coreDefault)
        else
          deltas.getD i coreDefault := by
  unfold enforce_gauge_conditions
  exact getD_range_map _ _ _ hi

/-- Reading `gauge_projected q d` back as a `(q.r1 * q.n) × q.r2` matrix
gives exactly `D - Q * (Qᵀ * D)`, with `Q` and `D` the reshaped `q` and
`d`: the flat-storage computation agrees with the matrix formula. -/
theorem gauge_projected_reshape (q d : Core) :
    reshape_mat (gauge_projected q d) (q.r1 * q.n) q.r2
      = reshape_mat d (q.r1 * q.n) q.r2
        - reshape_mat q (q.r1 * q.n) q.r2 *
          ((reshape_mat q (q.r1 * q.n) q.r2)ᵀ * reshape_mat d (q.r1 * q.n) q.r2) := by
  funext i j
  have hr : 0 < q.r2 := j.pos
  have hflip : i.val * q.r2 + j.val = j.val + i.val * q.r2 := by ring
  have hdiv : (i.val * q.r2 + j.val) / q.r2 = i.val := by
    rw [hflip, Nat.add_mul_div_right _ _ hr, Nat.div_eq_of_lt j.isLt, Nat.zero_add]
  have hmod : (i.val * q.r2 + j.val) % q.r2 = j.val := by
    rw [hflip, Nat.add_mul_mod_self_right, Nat.mod_eq_of_lt j.isLt]
  show (gauge_projected q d).entry (i.val * q.r2 + j.val) = _
  simp only [gauge_projected, hdiv, hmod, reshape_mat, Matrix.sub_apply,
    Matrix.mul_apply, Matrix.transpose_apply]

/-! ## Facts about the concrete instances -/

theorem ttOne_left_orthonormal : ttOne.Uᵀ * ttOne.U = 1 := by
  show (1 : Matrix (Fin 1) (Fin 1) ℚ)ᵀ * 1 = 1
  rw [transpose_one, one_mul]

theorem ttOne_right_orthonormal : ttOne.V * ttOne.Vᵀ = 1 := by
  show (1 : Matrix (Fin 1) (Fin 1) ℚ) * 1ᵀ = 1
  rw [transpose_one, one_mul]

theorem ttOne_value : ttValue ttOne = 1 := one_mul 1

theorem coreOne_reshape_orthonormal :
    (reshape_mat coreOne 1 1)ᵀ * reshape_mat coreOne 1 1 = 1 := by
  ext i j
  rw [Matrix.mul_apply, Fin.sum_univ_one]
  fin_cases i
  fin_cases j
  simp [reshape_mat, coreOne, Matrix.transpose_apply, Matrix.one_apply]

/-! ## The claims -/

/-- C1: for the representation-invariant function `f(x) = 0.5 * <x, t>^2`
with fixed tensor `t`, and every (order-2) TT point `x` with its
orthogonalized pair, `gradients` returns exactly the tangent vector
`project(<x, t> * t, x)` — exact equality, hence within any positive
numerical tolerance. -/
theorem c1_closed_form_gradient (x : TT2 n1 n2 r) (t : Amb n1 n2)
    (hU : x.Uᵀ * x.U = 1) (hV : x.V * x.Vᵀ = 1) :
    gradients x (inner_sq_half t) (inner_sq_half_grad t) false
      = Except.ok (project x (finner (ttValue x) t • t)) := by
  show Except.ok (deltas_to_tangent_space x (enforce_gauge_tt2 x
      (inner_sq_half_grad t (deltas_to_tangent_space x (initial_deltas_tt2 x)) * x.Vᵀ,
       x.Uᵀ * inner_sq_half_grad t (deltas_to_tangent_space x (initial_deltas_tt2 x))))) = _
  rw [encode_initial_deltas]
  show Except.ok (deltas_to_tangent_space x (enforce_gauge_tt2 x
      (finner (ttValue x) t • t * x.Vᵀ, x.Uᵀ * (finner (ttValue x) t • t)))) = _
  rw [encode_gauge_key]

/-- Witness for C1 at a concrete orthonormal instance. -/
theorem c1_closed_form_gradient_witness :
    (ttOne.Uᵀ * ttOne.U = 1) ∧ (ttOne.V * ttOne.Vᵀ = 1) ∧
    gradients ttOne (inner_sq_half 1) (inner_sq_half_grad 1) false
      = Except.ok (project ttOne (finner (ttValue ttOne) 1 • 1)) :=
  ⟨ttOne_left_orthonormal, ttOne_right_orthonormal,
   c1_closed_form_gradient ttOne 1 ttOne_left_orthonormal ttOne_right_orthonormal⟩

/-- C6: `hessian_vector_product` forms the directional-derivative scalar
as the sum over core indices of the elementwise sums
`grad1[i] * vec_deltas[i]`, differentiates it a second time with respect
to the same deltas (the second conjunct: `hvp_second_grad` is the exact
gradient of that scalar), enforces the gauge with `left` and encodes —
and the result is the Hessian-vector product `P_x (d2f/dx2) P_x vector`
for the quadratic function with Hessian operator `L`, with no full
Hessian matrix formed. -/
theorem c6_hessian_vector_product_correct (x : TT2 n1 n2 r)
    (L : Amb n1 n2 → Amb n1 n2) (g : Amb n1 n2) (vec : Amb n1 n2)
    (hU : x.Uᵀ * x.U = 1) (hV : x.V * x.Vᵀ = 1)
    (hAdd : ∀ a b, L (a + b) = L a + L b)
    (hSym : ∀ a b, finner (L a) b = finner a (L b)) :
    hessian_vector_product x L g vec = project x (L (project x vec))
    ∧ (∀ d e : Deltas2 n1 n2 r,
        hvp_directional x L g (tangent_space_to_deltas x (project x vec)) (d + e)
          - hvp_directional x L g (tangent_space_to_deltas x (project x vec)) d
        = finner e.1 (hvp_second_grad x L (tangent_space_to_deltas x (project x vec))).1
          + finner e.2 (hvp_second_grad x L (tangent_space_to_deltas x (project x vec))).2) := by
  constructor
  · show deltas_to_tangent_space x (enforce_gauge_tt2 x
        (hvp_second_grad x L (tangent_space_to_deltas x (project x vec)))) = _
    unfold hvp_second_grad
    rw [encode_gauge_key, tangent_encode_decode, project_idempotent x hU hV]
  · intro d e
    exact second_grad_expansion x L g hAdd hSym _ d e

/-- Witness for C6 with the identity Hessian operator. -/
theorem c6_hessian_vector_product_correct_witness :
    (ttOne.Uᵀ * ttOne.U = 1) ∧
    hessian_vector_product ttOne (fun z => z) 0 1 = project ttOne (project ttOne 1) :=
  ⟨ttOne_left_orthonormal, (c6_hessian_vector_product_correct ttOne (fun z => z) 0 1
      ttOne_left_orthonormal ttOne_right_orthonormal
      (fun _ _ => rfl) (fun _ _ => rfl)).1⟩

/-- C7: both orchestrators initialize the delta list as exactly
`[right.core[0]]` followed by one zero tensor of matching shape per
remaining core of `right` (the first three conjuncts, on the general
core-list model used verbatim at lines 99-100 and 161-162), and at this
configuration the encoding reproduces `x` exactly (last conjunct). -/
theorem c7_initial_delta_configuration :
    (∀ right : List Core, (initial_deltas right).length = right.length)
    ∧ (∀ right : List Core, right ≠ [] →
        (initial_deltas right).getD 0 coreDefault = right.getD 0 coreDefault)
    ∧ (∀ (right : List Core) (i : ℕ), 1 ≤ i →
        (initial_deltas right).getD i coreDefault
          = zero_like (right.getD i coreDefault))
    ∧ (∀ (m1 m2 rr : ℕ) (x : TT2 m1 m2 rr),
        deltas_to_tangent_space x (initial_deltas_tt2 x) = ttValue x) := by
  refine ⟨?_, ?_, ?_, ?_⟩
  · intro right
    cases right with
    | nil => rfl
    | cons c rest => simp [initial_deltas]
  · intro right h
    cases right with
    | nil => exact absurd rfl h
    | cons c rest => rfl
  · intro right i hi
    obtain ⟨k, rfl⟩ : ∃ k, i = k + 1 := ⟨i - 1, by omega⟩
    cases right with
    | nil => rfl
    | cons c rest =>
      show (c :: rest.map zero_like).getD (k + 1) coreDefault
          = zero_like ((c :: rest).getD (k + 1) coreDefault)
      simp only [List.getD_cons_succ]
      exact getD_map_zero_like rest k
  · intro m1 m2 rr x
    exact encode_initial_deltas x

/-- Witness for C7 on a concrete two-core `right`. -/
theorem c7_initial_delta_configuration_witness :
    ([coreOne, coreFive] : List Core) ≠ []
    ∧ (initial_deltas [coreOne, coreFive]).getD 0 coreDefault
        = ([coreOne, coreFive] : List Core).getD 0 coreDefault
    ∧ (1 : ℕ) ≤ 1
    ∧ (initial_deltas [coreOne, coreFive]).getD 1 coreDefault
        = zero_like (([coreOne, coreFive] : List Core).getD 1 coreDefault) :=
  ⟨by simp, c7_initial_delta_configuration.2.1 [coreOne, coreFive] (by simp),
   le_refl 1, c7_initial_delta_configuration.2.2.1 [coreOne, coreFive] 1 (le_refl 1)⟩

/-- C8 counterexample: for the representation-invariant constant-zero
function, debug mode fails the invariance assertion (the unguarded `0/0`
comparison is false) while non-debug mode returns a tangent vector, so
the two calls do not produce identical results. -/
theorem c8_counterexample :
    gradients ttOne (fun _ => 0) (fun _ => 0) true
      ≠ gradients ttOne (fun _ => 0) (fun _ => 0) false := by
  have hc : assert_condition 0 0 = false := by
    unfold assert_condition fdiv
    rw [if_pos rfl]
    rfl
  have h1 : gradients ttOne (fun _ => 0) (fun _ => 0) true
      = Except.error (err_message, 0, 0) := by
    simp only [gradients, is_invariant_to_input_transforms, hc]
    simp
  have h2 : ∃ v, gradients ttOne (fun _ => 0) (fun _ => 0) false = Except.ok v :=
    ⟨_, rfl⟩
  obtain ⟨v, h2⟩ := h2
  rw [h1, h2]
  exact fun h => Except.noConfusion h

/-- C8 amended: provided the invariance check passes — equivalently the
function's value at `x` is nonzero, an invariant function taking equal
values on `x_projection` and `right` — `gradients` with debug on and off
return identical results (the flag adds only the check, no arithmetic);
when the value is zero, debug mode aborts on the assertion instead of
producing a tangent vector. -/
theorem c8_debug_equivalence (x : TT2 n1 n2 r) (f : Amb n1 n2 → ℚ)
    (df : Amb n1 n2 → Amb n1 n2) (hnz : f (ttValue x) ≠ 0) :
    gradients x f df true = gradients x f df false := by
  have hv : f (deltas_to_tangent_space x (initial_deltas_tt2 x)) = f (ttValue x) := by
    rw [encode_initial_deltas]
  have hdiv : fdiv (f (ttValue x) - f (ttValue x)) (f (ttValue x)) = FVal.fin 0 := by
    unfold fdiv
    rw [if_neg hnz, sub_self, zero_div]
  have hcond : assert_condition (f (deltas_to_tangent_space x (initial_deltas_tt2 x)))
      (f (ttValue x)) = true := by
    rw [hv]
    unfold assert_condition
    rw [hdiv]
    show decide (|(0 : ℚ)| < 1 / 100000) = true
    rw [decide_eq_true_eq, abs_zero]
    norm_num
  simp only [gradients, is_invariant_to_input_transforms, hcond, if_true]
  rfl

/-- Witness for C8's amended statement at a nonvanishing function. -/
theorem c8_debug_equivalence_witness :
    ((fun z : Amb 1 1 => z 0 0) (ttValue ttOne) ≠ 0)
    ∧ gradients ttOne (fun z => z 0 0) (fun _ => 0) true
        = gradients ttOne (fun z => z 0 0) (fun _ => 0) false :=
  ⟨by rw [ttOne_value]; simp [Matrix.one_apply],
   c8_debug_equivalence ttOne (fun z => z 0 0) (fun _ => 0)
     (by rw [ttOne_value]; simp [Matrix.one_apply])⟩

/-- C10: the invariance check divides by the first function value with no
zero guard: whenever `f_value_1 = 0` the assert condition does not hold —
even when both values are exactly equal, both zero — and `gradients` in
debug mode aborts with the assertion error instead of returning a tangent
vector. -/
theorem c10_zero_value_rejected :
    (∀ v2 : ℚ, assert_condition 0 v2 = false)
    ∧ (∀ (m1 m2 rr : ℕ) (x : TT2 m1 m2 rr) (f : Amb m1 m2 → ℚ)
        (df : Amb m1 m2 → Amb m1 m2),
        f (deltas_to_tangent_space x (initial_deltas_tt2 x)) = 0 →
        gradients x f df true = Except.error (err_message, 0, 0)) := by
  constructor
  · intro v2
    unfold assert_condition fdiv
    rw [if_pos rfl]
    rfl
  · intro m1 m2 rr x f df h0
    have h2 : f (ttValue x) = 0 := by
      rw [← encode_initial_deltas x]
      exact h0
    simp only [gradients, is_invariant_to_input_transforms, h0, h2]
    rfl

/-- Witness for C10 at the constant-zero function. -/
theorem c10_zero_value_rejected_witness :
    ((fun _ : Amb 1 1 => (0 : ℚ))
        (deltas_to_tangent_space ttOne (initial_deltas_tt2 ttOne)) = 0)
    ∧ gradients ttOne (fun _ => 0) (fun _ => 0) true
        = Except.error (err_message, 0, 0) :=
  ⟨rfl, c10_zero_value_rejected.2 1 1 1 ttOne (fun _ => 0) (fun _ => 0) rfl⟩

/-- C5 counterexample: at `v1 = 100000`, `v2 = 99999` the relative
difference is exactly 1e-5 — it does not exceed the threshold — yet the
checker fails, because the code's passing condition is the strict
`rel_diff < 1e-5`. -/
theorem c5_counterexample :
    is_invariant_to_input_transforms 100000 99999
      = Except.error (err_message, 100000, 99999)
    ∧ |((100000 : ℚ) - 99999) / 100000| ≤ 1 / 100000 := by
  have hval : ((100000 : ℚ) - 99999) / 100000 = 1 / 100000 := by norm_num
  have habs : |((100000 : ℚ) - 99999) / 100000| = 1 / 100000 := by
    rw [abs_of_pos (by norm_num : (0 : ℚ) < ((100000 : ℚ) - 99999) / 100000), hval]
  constructor
  · unfold is_invariant_to_input_transforms assert_condition fdiv
    rw [if_neg (by norm_num : (100000 : ℚ) ≠ 0)]
    show (if fval_lt (FVal.fin |((100000 : ℚ) - 99999) / 100000|) (1 / 100000) = true
        then Except.ok () else Except.error (err_message, 100000, 99999)) = _
    rw [habs]
    show (if decide ((1 : ℚ) / 100000 < 1 / 100000) = true
        then Except.ok () else Except.error (err_message, 100000, 99999)) = _
    rw [if_neg (by simp)]
  · rw [habs]

/-- C5 amended: the checker computes the relative difference
`|(v1 - v2) / v1|` (equal to `|v1 - v2| / |v1|`) and fails exactly when
the passing condition `rel_diff < 1e-5` does not hold: when the relative
difference is at least 1e-5, or when `v1 = 0` and the unguarded division
makes the comparison false.  Strictly below 1e-5 with `v1` nonzero it
does not fail; the failure carries both values. -/
theorem c5_relative_difference_check (v1 v2 : ℚ) :
    is_invariant_to_input_transforms v1 v2 = Except.error (err_message, v1, v2)
      ↔ (v1 = 0 ∨ 1 / 100000 ≤ |(v1 - v2) / v1|) := by
  by_cases h : v1 = 0
  · simp [is_invariant_to_input_transforms, assert_condition, fdiv, fabs, fval_lt, h]
  · by_cases h2 : |(v1 - v2) / v1| < 1 / 100000
    · simp [is_invariant_to_input_transforms, assert_condition, fdiv, fabs, fval_lt,
        h, h2, not_le.mpr h2]
    · simp [is_invariant_to_input_transforms, assert_condition, fdiv, fabs, fval_lt,
        h, h2, not_lt.mp h2]

/-- C3: `_enforce_gauge_conditions` — for every left TT tensor and every
delta list with one entry per core of matching shape, each output delta
strictly before the last index is, in reshaped `(r1*n, r2)` matrix form,
the orthogonal-complement projection `delta_i - Q_i (Q_iᵀ delta_i)`; the
last delta is returned unchanged; the output list has one entry per core
and every output shape equals the corresponding input delta shape. -/
theorem c3_gauge_projection_formula (deltas left : List Core)
    (hlen : deltas.length = left.length)
    (hshape : ∀ i, i < left.length →
      (deltas.getD i coreDefault).r1 = (left.getD i coreDefault).r1
      ∧ (deltas.getD i coreDefault).n = (left.getD i coreDefault).n
      ∧ (deltas.getD i coreDefault).r2 = (left.getD i coreDefault).r2) :
    (enforce_gauge_conditions deltas left).length = left.length
    ∧ (∀ i, i < left.length - 1 →
        reshape_mat ((enforce_gauge_conditions deltas left).getD i coreDefault)
            ((left.getD i coreDefault).r1 * (left.getD i coreDefault).n)
            (left.getD i coreDefault).r2
          = reshape_mat (deltas.getD i coreDefault)
              ((left.getD i coreDefault).r1 * (left.getD i coreDefault).n)
              (left.getD i coreDefault).r2
            - reshape_mat (left.getD i coreDefault)
                ((left.getD i coreDefault).r1 * (left.getD i coreDefault).n)
                (left.getD i coreDefault).r2
              * ((reshape_mat (left.getD i coreDefault)
                    ((left.getD i coreDefault).r1 * (left.getD i coreDefault).n)
                    (left.getD i coreDefault).r2)ᵀ
                  * reshape_mat (deltas.getD i coreDefault)
                      ((left.getD i coreDefault).r1 * (left.getD i coreDefault).n)
                      (left.getD i coreDefault).r2))
    ∧ (left ≠ [] →
        (enforce_gauge_conditions deltas left).getD (left.length - 1) coreDefault
          = deltas.getD (left.length - 1) coreDefault)
    ∧ (∀ i, i < left.length →
        ((enforce_gauge_conditions deltas left).getD i coreDefault).r1
            = (deltas.getD i coreDefault).r1
        ∧ ((enforce_gauge_conditions deltas left).getD i coreDefault).n
            = (deltas.getD i coreDefault).n
        ∧ ((enforce_gauge_conditions deltas left).getD i coreDefault).r2
            = (deltas.getD i coreDefault).r2) := by
  refine ⟨?_, ?_, ?_, ?_⟩
  · unfold enforce_gauge_conditions
    simp
  · intro i hi
    have hi2 : i < left.length := lt_of_lt_of_le hi (Nat.sub_le _ _)
    rw [enforce_gauge_getD deltas left i hi2, if_pos hi]
    exact gauge_projected_reshape _ _
  · intro hne
    have hpos : 0 < left.length := List.length_pos.mpr hne
    have hlast : left.length - 1 < left.length := Nat.sub_lt hpos one_pos
    rw [enforce_gauge_getD deltas left _ hlast, if_neg (lt_irrefl _)]
  · intro i hi
    by_cases hcase : i < left.length - 1
    · rw [enforce_gauge_getD deltas left i hi, if_pos hcase]
      obtain ⟨h1, h2, h3⟩ := hshape i hi
      exact ⟨h1.symm, h2.symm, h3.symm⟩
    · rw [enforce_gauge_getD deltas left i hi, if_neg hcase]
      exact ⟨rfl, rfl, rfl⟩

/-- Witness for C3 on concrete two-core lists of matching shapes. -/
theorem c3_gauge_projection_formula_witness :
    ([coreFive, coreFive] : List Core).length = ([coreOne, coreOne] : List Core).length
    ∧ (enforce_gauge_conditions [coreFive, coreFive] [coreOne, coreOne]).getD 1 coreDefault
        = ([coreFive, coreFive] : List Core).getD 1 coreDefault :=
  ⟨rfl, (c3_gauge_projection_formula [coreFive, coreFive] [coreOne, coreOne] rfl
      (by
        intro i _
        match i with
        | 0 => exact ⟨rfl, rfl, rfl⟩
        | 1 => exact ⟨rfl, rfl, rfl⟩
        | (m + 2) => exact ⟨rfl, rfl, rfl⟩)).2.2.1 (by simp)⟩

/-- C4: after `_enforce_gauge_conditions`, for every index strictly
before the last, if the reshaped left core `Q_i` has orthonormal columns
then `Q_iᵀ delta_i'` vanishes — every entry has magnitude below 1e-6
(indeed it is exactly zero). -/
theorem c4_gauge_orthogonality (deltas left : List Core) (i : ℕ)
    (hi : i < left.length - 1)
    (hq : (reshape_mat (left.getD i coreDefault)
            ((left.getD i coreDefault).r1 * (left.getD i coreDefault).n)
            (left.getD i coreDefault).r2)ᵀ
          * reshape_mat (left.getD i coreDefault)
              ((left.getD i coreDefault).r1 * (left.getD i coreDefault).n)
              (left.getD i coreDefault).r2 = 1) :
    ∀ (a b : Fin (left.getD i coreDefault).r2),
      |((reshape_mat (left.getD i coreDefault)
            ((left.getD i coreDefault).r1 * (left.getD i coreDefault).n)
            (left.getD i coreDefault).r2)ᵀ
          * reshape_mat ((enforce_gauge_conditions deltas left).getD i coreDefault)
              ((left.getD i coreDefault).r1 * (left.getD i coreDefault).n)
              (left.getD i coreDefault).r2) a b| < 1 / 1000000 := by
  intro a b
  have hi2 : i < left.length := lt_of_lt_of_le hi (Nat.sub_le _ _)
  rw [enforce_gauge_getD deltas left i hi2, if_pos hi, gauge_projected_reshape,
    Matrix.mul_sub, ← Matrix.mul_assoc, hq, Matrix.one_mul, sub_self,
    Matrix.zero_apply, abs_zero]
  norm_num

/-- Witness for C4 on a concrete orthonormal left core. -/
theorem c4_gauge_orthogonality_witness :
    (0 : ℕ) < ([coreOne, coreOne] : List Core).length - 1
    ∧ |((reshape_mat coreOne (1 * 1) 1)ᵀ
        * reshape_mat
            ((enforce_gauge_conditions [coreFive, coreFive] [coreOne, coreOne]).getD 0
              coreDefault)
            (1 * 1) 1) 0 0| < 1 / 1000000 :=
  ⟨by decide,
   c4_gauge_orthogonality [coreFive, coreFive] [coreOne, coreOne] 0 (by decide)
     coreOne_reshape_orthonormal ⟨0, by decide⟩ ⟨0, by decide⟩⟩

/-- C2 counterexample: in the `hessian_vector_product` graph there is a
valid execution that produces the result of the first reverse-mode
differentiation pass without ever evaluating the assert op — the control
dependency of lines 169-170 gates only the projection of `vector`, not
`tf.gradients(function_value, deltas)`. -/
theorem c2_counterexample :
    ¬ (∀ l : List HNode, exec_order hvp_edge l → HNode.grad1 ∈ l →
        HNode.assertOp ∈ l) := by
  intro h
  exact absurd (h hvp_sched_no_assert (by decide) (by decide)) (by decide)

/-- C2 amended: in `gradients` every execution that produces the first
differentiation pass has evaluated the assert op strictly earlier (the
control dependency of line 107); in `hessian_vector_product` the
assertion gates the projection of the input vector, so every execution
that produces the returned tangent vector has evaluated the assert op
strictly earlier, but the first differentiation pass itself is not gated
and can produce its result without the assertion being evaluated. -/
theorem c2_assert_sequencing :
    (∀ l : List GNode, exec_order grad_edge l → GNode.grad1 ∈ l →
      GNode.assertOp ∈ l ∧ l.indexOf GNode.assertOp < l.indexOf GNode.grad1)
    ∧ (∀ l : List HNode, exec_order hvp_edge l → HNode.output ∈ l →
      HNode.assertOp ∈ l ∧ l.indexOf HNode.assertOp < l.indexOf HNode.output)
    ∧ exec_order hvp_edge hvp_sched_no_assert
    ∧ HNode.grad1 ∈ hvp_sched_no_assert
    ∧ HNode.assertOp ∉ hvp_sched_no_assert := by
  refine ⟨?_, ?_, by decide, by decide, by decide⟩
  · intro l hl hmem
    exact hl.2 _ hmem _ rfl
  · intro l hl hmem
    obtain ⟨h1, h2⟩ := hl.2 _ hmem HNode.gauge rfl
    obtain ⟨h3, h4⟩ := hl.2 _ h1 HNode.grad2 rfl
    obtain ⟨h5, h6⟩ := hl.2 _ h3 HNode.directional rfl
    obtain ⟨h7, h8⟩ := hl.2 _ h5 HNode.vecDeltas rfl
    obtain ⟨h9, h10⟩ := hl.2 _ h7 HNode.projV rfl
    obtain ⟨h11, h12⟩ := hl.2 _ h9 HNode.assertOp rfl
    exact ⟨h11, lt_trans h12 (lt_trans h10 (lt_trans h8 (lt_trans h6 (lt_trans h4 h2))))⟩

/-- Witness for C2's amended statement on complete executions of both
graphs. -/
theorem c2_assert_sequencing_witness :
    (exec_order grad_edge grad_sched_full ∧ GNode.grad1 ∈ grad_sched_full
      ∧ GNode.assertOp ∈ grad_sched_full
      ∧ grad_sched_full.indexOf GNode.assertOp < grad_sched_full.indexOf GNode.grad1)
    ∧ (exec_order hvp_edge hvp_sched_full ∧ HNode.output ∈ hvp_sched_full
      ∧ HNode.assertOp ∈ hvp_sched_full
      ∧ hvp_sched_full.indexOf HNode.assertOp < hvp_sched_full.indexOf HNode.output) :=
  ⟨⟨by decide, by decide,
    (c2_assert_sequencing.1 grad_sched_full (by decide) (by decide)).1,
    (c2_assert_sequencing.1 grad_sched_full (by decide) (by decide)).2⟩,
   ⟨by decide, by decide,
    (c2_assert_sequencing.2.1 hvp_sched_full (by decide) (by decide)).1,
    (c2_assert_sequencing.2.1 hvp_sched_full (by decide) (by decide)).2⟩⟩

/-- C9: the unfinished `_block_diag_hessian_vector_product` reads the
undefined name `w` in the TT-matrix branch of its slicing ladder: for
every TT-matrix input with at least two cores the loop raises `NameError`
at index 1 and the function returns no tangent vector.  (The function is
underscore-prefixed and not exported, outside the public contract.) -/
theorem c9_block_diag_name_error (ndims : ℕ) (shapes : List (ℕ × ℕ))
    (coresGrads : List Core) (h : 2 ≤ ndims) :
    block_diag_final_deltas true ndims shapes coresGrads
      = Except.error name_error_w := by
  obtain ⟨k, rfl⟩ : ∃ k, ndims = k + 2 := ⟨ndims - 2, by omega⟩
  have hrange : List.range (k + 2)
      = 0 :: 1 :: ((List.range k).map Nat.succ).map Nat.succ := by
    rw [show k + 2 = (k + 1) + 1 from rfl, List.range_succ_eq_map,
      List.range_succ_eq_map, List.map_cons]
  unfold block_diag_final_deltas
  rw [hrange]
  simp [run_loop, block_diag_curr_grad]

/-- Witness for C9 at the smallest matrix order that raises. -/
theorem c9_block_diag_name_error_witness :
    (2 : ℕ) ≤ 2
    ∧ block_diag_final_deltas true 2 [] [] = Except.error name_error_w :=
  ⟨le_refl 2, c9_block_diag_name_error 2 [] [] (le_refl 2)⟩

end T3F
